import Mathlib

/-!
Verification of the audio sampler (src/server/audio/sampler.py).

The development shallowly embeds the `Sampler` class.  Samples are modelled
as exact rationals (the code uses numpy floating point; all claims under
consideration are about the algebraic mixing function and control flow, not
about rounding).  A `Sound` object (external collaborator, provided by
callers of `play`) is modelled from the spec: it carries a samplerate, a
mutable `playing` flag and a lazy finite chunk iterator, realised as the
list of not-yet-consumed chunks; `next` pops the head and end-of-sequence
(Python `StopIteration`) occurs at the empty list.

Python object identity is modelled with natural-number identifiers plus a
store mapping each identifier to the current `Sound` state; `self.sounds`
is the list of identifiers currently registered.

The sequential methods `play` (up to its final `is_done.wait()`), `remove`
and one cycle of `next_chunks` are embedded as pure state transformers.
The concurrent behaviour (the chunk-producer thread `chunks_producer`, the
device-writer loop in `run`, and caller threads blocked in `play`) is
embedded as a small-step transition relation `Step` between whole-system
states, with one transition per atomic source-level action and blocking
realised by transition guards.
-/

namespace Sampler

/-- One audio chunk: a fixed-length block of samples. -/
abbrev Chunk := List ℚ

/-- Modelled from the spec: the external Source collaborator (spec section 3
and section 6).  `sr` is its samplerate, `playing` the mutable flag, and
`chunks` the remaining portion of its lazy finite chunk sequence: pulling
`next(s.chunks)` returns the head and leaves the tail; `StopIteration` is
raised when the list is empty.  The actual Sound class is not part of the
sources under verification. -/
structure Sound where
  sr : Int
  playing : Bool
  chunks : List Chunk
deriving DecidableEq

instance : Inhabited Sound := ⟨⟨22050, false, []⟩⟩

/-- The mutable state of the sampler.  `store` is the heap of caller-owned
`Sound` objects, addressed by identity.  `sounds` models `self.sounds`,
`is_done` the `threading.Event` of the same name, `queue`/`qcap` the
bounded `Queue(1)` handoff (`self.chunks`), and `running` the shutdown
flag set in `run`. -/
structure Mix where
  sr : Int
  store : Nat → Sound
  sounds : List Nat
  is_done : Bool
  queue : List Chunk
  qcap : Nat
  running : Bool

/-- Pointwise update of the sound store (mutation of one Python object). -/
def updStore (f : Nat → Sound) (i : Nat) (s : Sound) : Nat → Sound :=
  fun j => if j = i then s else f j

/-- `Sampler.remove` (sampler.py lines 70-74).  Sets `sound.playing = False`
first, then `self.sounds.remove(sound)`; the Boolean result records whether
`list.remove` raised `ValueError` (element absent).  Note that the flag
mutation survives the raise. -/
def remove (sid : Nat) (m : Mix) : Mix × Bool :=
  let m1 : Mix := { m with store := updStore m.store sid { m.store sid with playing := false } }
  if sid ∈ m1.sounds then ({ m1 with sounds := m1.sounds.erase sid }, false)
  else (m1, true)

/-- `Sampler.play` up to (not including) the final `is_done.wait()`
(sampler.py lines 48-67): clear `is_done`, check the samplerate (raising
`ValueError` on mismatch, recorded in the Boolean), remove the sound if
already registered, append it and set `playing = True`.  The
`chunk_available.notify()` is handled at the system-transition level. -/
def play (sid : Nat) (m : Mix) : Mix × Bool :=
  let m0 : Mix := { m with is_done := false }
  if m0.sr ≠ (m0.store sid).sr then (m0, true)
  else
    let m1 : Mix := if sid ∈ m0.sounds then (remove sid m0).1 else m0
    let m2 : Mix := { m1 with sounds := m1.sounds ++ [sid] }
    ({ m2 with store := updStore m2.store sid { m2.store sid with playing := true } }, false)

/-- Body of the `for s in playing_sounds` loop of `next_chunks`
(sampler.py lines 85-91): pull the next chunk on success, otherwise mark
the sound stopped, remove it and set `is_done`. -/
def cycleStep (acc : Mix × List Chunk) (sid : Nat) : Mix × List Chunk :=
  let m := acc.1
  let s := m.store sid
  match s.chunks with
  | c :: rest =>
      ({ m with store := updStore m.store sid { s with chunks := rest } }, acc.2 ++ [c])
  | [] =>
      ({ m with store := updStore m.store sid { s with playing := false },
                sounds := m.sounds.erase sid,
                is_done := true }, acc.2)

/-- The snapshot `playing_sounds = [s for s in self.sounds if s.playing]`
(sampler.py line 82). -/
def snapshot (m : Mix) : List Nat :=
  m.sounds.filter (fun sid => (m.store sid).playing)

/-- One iteration of the `while True` loop of `next_chunks` (sampler.py
lines 81-96): snapshot the playing sounds and process each in order. -/
def runCycle (m : Mix) : Mix × List Chunk :=
  (snapshot m).foldl cycleStep (m, [])

/-- Elementwise addition of sample blocks. -/
def vecAdd (a b : List ℚ) : List ℚ := List.zipWith (fun x y => x + y) a b

/-- `numpy.mean(chunks, axis=0)` on a list of equal-length chunks:
elementwise sum divided by the number of chunks (sampler.py line 98). -/
def npMean (cs : List Chunk) : Chunk :=
  match cs with
  | [] => []
  | c :: rest => (rest.foldl vecAdd c).map (fun x => x / ((rest.length + 1 : Nat) : ℚ))

/-- `next_chunks` (sampler.py lines 78-98), restricted to the non-blocking
case: if the first cycle collects at least one chunk it returns the mean,
otherwise the thread would block on `chunk_available.wait()` (`none`). -/
def next_chunks (m : Mix) : Option (Mix × Chunk) :=
  let p := runCycle m
  match p.2 with
  | [] => none
  | _ => some (p.1, npMean p.2)

/-- The two accepted backend selectors (sampler.py lines 28-35). -/
inductive BackendKind where
  | dummy
  | sounddevice
deriving DecidableEq

/-- Errors raised by the constructor. -/
inductive SamplerError where
  | configError
deriving DecidableEq

/-- Backend dispatch in `Sampler.__init__` (sampler.py lines 28-35): any
selector other than "dummy" or "sounddevice" raises `ValueError`. -/
def chooseBackend (backend : String) : Except SamplerError BackendKind :=
  if backend = "dummy" then .ok .dummy
  else if backend = "sounddevice" then .ok .sounddevice
  else .error .configError

/-- Sampler state as first set up by `__init__` (sampler.py lines 20-26):
empty sound list, cleared `is_done`, empty `Queue(1)`; `running` is set
later, by `run`. -/
def mixInit (sr : Int) (store : Nat → Sound) : Mix :=
  { sr := sr, store := store, sounds := [], is_done := false,
    queue := [], qcap := 1, running := false }

/-- Result of a successful construction: the initial state, the selected
backend, and the fact that the playback thread was started
(sampler.py lines 38-40, reached only after backend dispatch succeeds). -/
structure InitResult where
  st : Mix
  backendKind : BackendKind
  threadStarted : Bool

/-- `Sampler.__init__` (sampler.py lines 14-40).  Field assignments, then
backend dispatch (which may raise), then the playback thread start; the
raise on an unknown selector happens before `Thread(...).start()`, so on
error no `InitResult` is produced. -/
def samplerInit (sr : Int) (store : Nat → Sound) (backend : String) :
    Except SamplerError InitResult :=
  match chooseBackend backend with
  | .error e => .error e
  | .ok bk => .ok ⟨mixInit sr store, bk, true⟩

/-- Externally visible side effects of `__init__`, in source order: the
playback-thread start (line 40) occurs only after backend dispatch
(lines 28-35) has succeeded. -/
inductive InitEffect where
  | threadStart
deriving DecidableEq

/-- The effect trace of `__init__` for a given backend selector. -/
def samplerInitEffects (backend : String) : List InitEffect :=
  match chooseBackend backend with
  | .error _ => []
  | .ok _ => [.threadStart]

/-! ## The concurrent system

One producer thread (`chunks_producer` inside `run`), one device-writer
loop (the body of `run` itself), and arbitrarily many caller threads
blocked in `play`. -/

/-- Program counter of the chunk-producer thread. -/
inductive ProdPC where
  | loopHead
  | waitingCV
  | waitingPut (c : Chunk)
  | exited
deriving DecidableEq

/-- Program counter of the device-writer loop. -/
inductive WriterPC where
  | loopHead
  | exited
deriving DecidableEq

/-- Program counter of one caller thread executing `play(sound)`. -/
inductive CallerPC where
  | ready
  | waitingDone
  | returned
  | raisedMismatch
deriving DecidableEq

/-- One caller thread: the sound it plays and its program counter. -/
structure CallerTh where
  sound : Nat
  pc : CallerPC
deriving DecidableEq

/-- Whole-system state: sampler state plus the three kinds of threads,
the condition-variable wake token, the chunks written to the device and
whether the output stream has been released. -/
structure SysState where
  mix : Mix
  prod : ProdPC
  writer : WriterPC
  callers : List CallerTh
  cvNotified : Bool
  written : List Chunk
  driverReleased : Bool

/-- Producer: run one `next_chunks` cycle; block on the condition variable
if nothing was collected, otherwise move to the blocking `put`. -/
def applyProdCycle (s : SysState) : SysState :=
  let p := runCycle s.mix
  match p.2 with
  | [] => { s with mix := p.1, prod := .waitingCV }
  | _ => { s with mix := p.1, prod := .waitingPut (npMean p.2) }

/-- Producer: wake from `chunk_available.wait()` (consuming the notify)
and re-run the cycle. -/
def applyProdWake (s : SysState) : SysState :=
  { applyProdCycle s with cvNotified := false }

/-- Producer: observe `running == False` at the loop head and exit. -/
def applyProdExit (s : SysState) : SysState := { s with prod := .exited }

/-- Producer: complete `self.chunks.put(...)` once the queue has room. -/
def applyProdPut (s : SysState) : SysState :=
  match s.prod with
  | .waitingPut c =>
      { s with mix := { s.mix with queue := s.mix.queue ++ [c] }, prod := .loopHead }
  | _ => s

/-- Writer: `self.chunks.get(...)` succeeds and `stream.write` runs. -/
def applyWriterWrite (s : SysState) : SysState :=
  match s.mix.queue with
  | c :: rest =>
      { s with mix := { s.mix with queue := rest }, written := s.written ++ [c] }
  | [] => s

/-- Writer: `get` raises `Empty` after the timeout; the handler sets
`self.running = False` (sampler.py lines 115-116). -/
def applyWriterTimeout (s : SysState) : SysState :=
  { s with mix := { s.mix with running := false } }

/-- Writer: observe `running == False`, leave the loop and release the
backend stream (end of the `with` block). -/
def applyWriterExit (s : SysState) : SysState :=
  { s with writer := .exited, driverReleased := true }

/-- Is the producer blocked in `chunk_available.wait()`? -/
def isWaitingCV : ProdPC → Bool
  | .waitingCV => true
  | _ => false

/-- Caller thread i executes `play` up to the final wait: on success the
sound is registered and `chunk_available.notify()` wakes the producer if
it is blocked on the condition variable (a notify with no waiter is
lost). -/
def applyCallerPlay (i : Nat) (s : SysState) : SysState :=
  match s.callers[i]? with
  | some c =>
      let pr := play c.sound s.mix
      { s with mix := pr.1,
               callers := s.callers.set i
                 { c with pc := if pr.2 then .raisedMismatch else .waitingDone },
               cvNotified := if pr.2 = false && isWaitingCV s.prod then true else s.cvNotified }
  | none => s

/-- Caller thread i returns from `is_done.wait()` (enabled only while the
event is set). -/
def applyCallerRet (i : Nat) (s : SysState) : SysState :=
  match s.callers[i]? with
  | some c => { s with callers := s.callers.set i { c with pc := .returned } }
  | none => s

/-- One atomic step of the whole system.  Guards encode blocking: a thread
waiting on the condition variable, the full queue, or the cleared
`is_done` event has no enabled transition until another thread changes
the state. -/
inductive Step : SysState → SysState → Prop where
  | prodExit (s : SysState) :
      s.prod = .loopHead → s.mix.running = false → Step s (applyProdExit s)
  | prodCycle (s : SysState) :
      s.prod = .loopHead → s.mix.running = true → Step s (applyProdCycle s)
  | prodWake (s : SysState) :
      s.prod = .waitingCV → s.cvNotified = true → Step s (applyProdWake s)
  | prodPut (s : SysState) (c : Chunk) :
      s.prod = .waitingPut c → s.mix.queue.length < s.mix.qcap → Step s (applyProdPut s)
  | writerExit (s : SysState) :
      s.writer = .loopHead → s.mix.running = false → Step s (applyWriterExit s)
  | writerWrite (s : SysState) (c : Chunk) (rest : List Chunk) :
      s.writer = .loopHead → s.mix.running = true → s.mix.queue = c :: rest →
      Step s (applyWriterWrite s)
  | writerTimeout (s : SysState) :
      s.writer = .loopHead → s.mix.running = true → s.mix.queue = [] →
      Step s (applyWriterTimeout s)
  | callerPlay (s : SysState) (i : Nat) (c : CallerTh) :
      s.callers[i]? = some c → c.pc = .ready → Step s (applyCallerPlay i s)
  | callerRet (s : SysState) (i : Nat) (c : CallerTh) :
      s.callers[i]? = some c → c.pc = .waitingDone → s.mix.is_done = true →
      Step s (applyCallerRet i s)

/-- Zero or more system steps. -/
def Reachable : SysState → SysState → Prop := Relation.ReflTransGen Step

/-- A state as produced by `Sampler.__init__` followed by the start of
`run`: no sounds registered, event cleared, empty capacity-1 queue,
`running` set, both loops at their heads, all callers about to invoke
`play`. -/
def InitState (s : SysState) : Prop :=
  s.mix.sounds = [] ∧ s.mix.is_done = false ∧ s.mix.queue = [] ∧ s.mix.qcap = 1 ∧
  s.mix.running = true ∧ s.prod = .loopHead ∧ s.writer = .loopHead ∧
  s.cvNotified = false ∧ s.written = [] ∧ s.driverReleased = false ∧
  (∀ c ∈ s.callers, c.pc = .ready)

/-- Executable check: does any thread have an enabled transition? -/
def hasStep (s : SysState) : Bool :=
  (match s.prod with
   | .loopHead => true
   | .waitingCV => s.cvNotified
   | .waitingPut _ => decide (s.mix.queue.length < s.mix.qcap)
   | .exited => false) ||
  (match s.writer with
   | .loopHead => true
   | .exited => false) ||
  s.callers.any (fun c =>
    match c.pc with
    | .ready => true
    | .waitingDone => s.mix.is_done
    | _ => false)

/-- The PlaybackSet invariant of the spec: every registered sound is
playing and no sound is registered twice. -/
def PlaybackInv (m : Mix) : Prop :=
  (∀ sid ∈ m.sounds, (m.store sid).playing = true) ∧ m.sounds.Nodup

/-- Sound `r` has gone through the exhaustion path: marked not playing,
its iterator empty, and no longer registered. -/
def Exhausted (m : Mix) (r : Nat) : Prop :=
  (m.store r).playing = false ∧ (m.store r).chunks = [] ∧ r ∉ m.sounds

/-- If the completion event is set, some sound was exhausted. -/
def DoneEv (m : Mix) : Prop :=
  m.is_done = true → ∃ r, Exhausted m r

instance (m : Mix) : Decidable (PlaybackInv m) := by
  unfold PlaybackInv; infer_instance

instance (s : SysState) : Decidable (InitState s) := by
  unfold InitState; infer_instance

/-! ## Basic lemmas about the sequential operations -/

theorem updStore_same (f : Nat → Sound) (i : Nat) (s : Sound) : updStore f i s i = s := by
  simp [updStore]

theorem updStore_other (f : Nat → Sound) (i j : Nat) (s : Sound) (h : j ≠ i) :
    updStore f i s j = f j := by
  simp [updStore, h]

theorem play_mismatch (m : Mix) (sid : Nat) (h : m.sr ≠ (m.store sid).sr) :
    play sid m = ({ m with is_done := false }, true) := by
  simp [play, h]

theorem remove_of_mem (m : Mix) (sid : Nat) (h : sid ∈ m.sounds) :
    remove sid m =
      ({ m with store := updStore m.store sid { m.store sid with playing := false },
                sounds := m.sounds.erase sid }, false) := by
  simp [remove, h]

theorem remove_of_not_mem (m : Mix) (sid : Nat) (h : sid ∉ m.sounds) :
    remove sid m =
      ({ m with store := updStore m.store sid { m.store sid with playing := false } },
       true) := by
  simp [remove, h]

theorem play_frame (m : Mix) (sid : Nat) :
    (play sid m).1.queue = m.queue ∧ (play sid m).1.qcap = m.qcap ∧
    (play sid m).1.running = m.running ∧ (play sid m).1.sr = m.sr ∧
    (play sid m).1.is_done = false := by
  by_cases h : m.sr ≠ (m.store sid).sr
  · simp [play, h]
  · by_cases h2 : sid ∈ m.sounds <;> simp [play, remove, h, h2]

theorem cycleStep_of_nil (acc : Mix × List Chunk) (sid : Nat)
    (hc : (acc.1.store sid).chunks = []) :
    cycleStep acc sid =
      ({ acc.1 with store := updStore acc.1.store sid { acc.1.store sid with playing := false },
                    sounds := acc.1.sounds.erase sid,
                    is_done := true }, acc.2) := by
  simp [cycleStep, hc]

theorem cycleStep_of_cons (acc : Mix × List Chunk) (sid : Nat) (c : Chunk) (rest : List Chunk)
    (hc : (acc.1.store sid).chunks = c :: rest) :
    cycleStep acc sid =
      ({ acc.1 with store := updStore acc.1.store sid { acc.1.store sid with chunks := rest } },
       acc.2 ++ [c]) := by
  simp [cycleStep, hc]

theorem cycleStep_frame (acc : Mix × List Chunk) (sid : Nat) :
    (cycleStep acc sid).1.queue = acc.1.queue ∧ (cycleStep acc sid).1.qcap = acc.1.qcap ∧
    (cycleStep acc sid).1.running = acc.1.running ∧ (cycleStep acc sid).1.sr = acc.1.sr := by
  cases hc : (acc.1.store sid).chunks with
  | nil => simp [cycleStep_of_nil acc sid hc]
  | cons c rest => simp [cycleStep_of_cons acc sid c rest hc]

theorem cycleStep_done_mono (acc : Mix × List Chunk) (sid : Nat)
    (h : acc.1.is_done = true) : (cycleStep acc sid).1.is_done = true := by
  cases hc : (acc.1.store sid).chunks with
  | nil => simp [cycleStep_of_nil acc sid hc]
  | cons c rest => simp [cycleStep_of_cons acc sid c rest hc, h]

theorem cycleStep_not_mem_mono (acc : Mix × List Chunk) (sid r : Nat)
    (h : r ∉ acc.1.sounds) : r ∉ (cycleStep acc sid).1.sounds := by
  cases hc : (acc.1.store sid).chunks with
  | nil =>
      simp only [cycleStep_of_nil acc sid hc]
      exact fun hm => h (List.mem_of_mem_erase hm)
  | cons c rest => simp [cycleStep_of_cons acc sid c rest hc, h]

theorem cycleStep_nodup (acc : Mix × List Chunk) (sid : Nat)
    (h : acc.1.sounds.Nodup) : (cycleStep acc sid).1.sounds.Nodup := by
  cases hc : (acc.1.store sid).chunks with
  | nil => simp only [cycleStep_of_nil acc sid hc]; exact h.erase sid
  | cons c rest => simp [cycleStep_of_cons acc sid c rest hc, h]

theorem cycleStep_exh_pres (acc : Mix × List Chunk) (sid r : Nat)
    (h : Exhausted acc.1 r) : Exhausted (cycleStep acc sid).1 r := by
  obtain ⟨h1, h2, h3⟩ := h
  by_cases hr : r = sid
  · subst hr
    simp only [cycleStep_of_nil acc r h2, Exhausted, updStore_same]
    exact ⟨by simp, by simp [h2], fun hm => h3 (List.mem_of_mem_erase hm)⟩
  · cases hc : (acc.1.store sid).chunks with
    | nil =>
        simp only [cycleStep_of_nil acc sid hc, Exhausted, updStore_other _ _ _ _ hr]
        exact ⟨h1, h2, fun hm => h3 (List.mem_of_mem_erase hm)⟩
    | cons c rest =>
        simp only [cycleStep_of_cons acc sid c rest hc, Exhausted, updStore_other _ _ _ _ hr]
        exact ⟨h1, h2, h3⟩

theorem cycleStep_inv (acc : Mix × List Chunk) (sid : Nat)
    (h : PlaybackInv acc.1) : PlaybackInv (cycleStep acc sid).1 := by
  obtain ⟨hpl, hnd⟩ := h
  cases hc : (acc.1.store sid).chunks with
  | nil =>
      simp only [cycleStep_of_nil acc sid hc, PlaybackInv]
      constructor
      · intro j hj
        have hj' : j ≠ sid ∧ j ∈ acc.1.sounds := (hnd.mem_erase_iff).1 hj
        rw [updStore_other _ _ _ _ hj'.1]
        exact hpl j hj'.2
      · exact hnd.erase sid
  | cons c rest =>
      simp only [cycleStep_of_cons acc sid c rest hc, PlaybackInv]
      constructor
      · intro j hj
        by_cases hjs : j = sid
        · subst hjs; rw [updStore_same]; exact hpl j hj
        · rw [updStore_other _ _ _ _ hjs]; exact hpl j hj
      · exact hnd

/-! ## Lemmas about one whole mixing cycle (the fold over the snapshot) -/

theorem foldl_cycleStep_frame (l : List Nat) :
    ∀ acc : Mix × List Chunk,
      (l.foldl cycleStep acc).1.queue = acc.1.queue ∧
      (l.foldl cycleStep acc).1.qcap = acc.1.qcap ∧
      (l.foldl cycleStep acc).1.running = acc.1.running ∧
      (l.foldl cycleStep acc).1.sr = acc.1.sr := by
  induction l with
  | nil => intro acc; simp
  | cons sid l ih =>
      intro acc
      rw [List.foldl_cons]
      obtain ⟨q1, q2, q3, q4⟩ := ih (cycleStep acc sid)
      obtain ⟨p1, p2, p3, p4⟩ := cycleStep_frame acc sid
      exact ⟨q1.trans p1, q2.trans p2, q3.trans p3, q4.trans p4⟩

theorem foldl_cycleStep_done_mono (l : List Nat) :
    ∀ acc : Mix × List Chunk, acc.1.is_done = true →
      (l.foldl cycleStep acc).1.is_done = true := by
  induction l with
  | nil => intro acc h; simpa using h
  | cons sid l ih =>
      intro acc h
      rw [List.foldl_cons]
      exact ih (cycleStep acc sid) (cycleStep_done_mono acc sid h)

theorem foldl_cycleStep_not_mem_mono (l : List Nat) :
    ∀ (acc : Mix × List Chunk) (r : Nat), r ∉ acc.1.sounds →
      r ∉ (l.foldl cycleStep acc).1.sounds := by
  induction l with
  | nil => intro acc r h; simpa using h
  | cons sid l ih =>
      intro acc r h
      rw [List.foldl_cons]
      exact ih (cycleStep acc sid) r (cycleStep_not_mem_mono acc sid r h)

theorem foldl_cycleStep_nodup (l : List Nat) :
    ∀ acc : Mix × List Chunk, acc.1.sounds.Nodup →
      (l.foldl cycleStep acc).1.sounds.Nodup := by
  induction l with
  | nil => intro acc h; simpa using h
  | cons sid l ih =>
      intro acc h
      rw [List.foldl_cons]
      exact ih (cycleStep acc sid) (cycleStep_nodup acc sid h)

theorem foldl_cycleStep_exh_pres (l : List Nat) :
    ∀ (acc : Mix × List Chunk) (r : Nat), Exhausted acc.1 r →
      Exhausted (l.foldl cycleStep acc).1 r := by
  induction l with
  | nil => intro acc r h; simpa using h
  | cons sid l ih =>
      intro acc r h
      rw [List.foldl_cons]
      exact ih (cycleStep acc sid) r (cycleStep_exh_pres acc sid r h)

theorem foldl_cycleStep_inv (l : List Nat) :
    ∀ acc : Mix × List Chunk, PlaybackInv acc.1 →
      PlaybackInv (l.foldl cycleStep acc).1 := by
  induction l with
  | nil => intro acc h; simpa using h
  | cons sid l ih =>
      intro acc h
      rw [List.foldl_cons]
      exact ih (cycleStep acc sid) (cycleStep_inv acc sid h)

theorem foldl_cycleStep_store_frame (l : List Nat) :
    ∀ (acc : Mix × List Chunk) (r : Nat), r ∉ l →
      (l.foldl cycleStep acc).1.store r = acc.1.store r := by
  induction l with
  | nil => intro acc r _; simp
  | cons sid l ih =>
      intro acc r h
      rw [List.foldl_cons]
      have hr : r ≠ sid := fun he => h (he ▸ List.mem_cons_self sid l)
      have h2 : r ∉ l := fun hm => h (List.mem_cons_of_mem sid hm)
      rw [ih (cycleStep acc sid) r h2]
      cases hc : (acc.1.store sid).chunks with
      | nil => simp [cycleStep_of_nil acc sid hc, updStore_other _ _ _ _ hr]
      | cons c rest => simp [cycleStep_of_cons acc sid c rest hc, updStore_other _ _ _ _ hr]

theorem foldl_cycleStep_done_source (l : List Nat) :
    ∀ acc : Mix × List Chunk, acc.1.sounds.Nodup →
      (l.foldl cycleStep acc).1.is_done = true →
      acc.1.is_done = true ∨ ∃ r ∈ l, Exhausted (l.foldl cycleStep acc).1 r := by
  induction l with
  | nil => intro acc _ h; exact Or.inl (by simpa using h)
  | cons sid l ih =>
      intro acc hnd h
      rw [List.foldl_cons] at h ⊢
      rcases ih (cycleStep acc sid) (cycleStep_nodup acc sid hnd) h with h1 | ⟨r, hr, hex⟩
      · cases hc : (acc.1.store sid).chunks with
        | nil =>
            refine Or.inr ⟨sid, List.mem_cons_self sid l, ?_⟩
            apply foldl_cycleStep_exh_pres
            simp only [cycleStep_of_nil acc sid hc, Exhausted, updStore_same]
            exact ⟨by simp, by simp [hc],
              fun hm => absurd ((hnd.mem_erase_iff).1 hm).1 (by simp)⟩
        | cons c rest =>
            left
            have : (cycleStep acc sid).1.is_done = acc.1.is_done := by
              simp [cycleStep_of_cons acc sid c rest hc]
            rwa [this] at h1
      · exact Or.inr ⟨r, List.mem_cons_of_mem sid hr, hex⟩

theorem foldl_cycleStep_collect (l : List Nat) :
    ∀ acc : Mix × List Chunk, l.Nodup →
      (∀ sid ∈ l, (acc.1.store sid).chunks ≠ []) →
      (l.foldl cycleStep acc).2 =
        acc.2 ++ l.map (fun sid => (acc.1.store sid).chunks.headD []) ∧
      (l.foldl cycleStep acc).1.sounds = acc.1.sounds ∧
      (l.foldl cycleStep acc).1.is_done = acc.1.is_done := by
  induction l with
  | nil => intro acc _ _; simp
  | cons sid l ih =>
      intro acc hnd hch
      obtain ⟨c, rest, hc⟩ : ∃ c rest, (acc.1.store sid).chunks = c :: rest := by
        cases hcc : (acc.1.store sid).chunks with
        | nil => exact absurd hcc (hch sid (List.mem_cons_self sid l))
        | cons c rest => exact ⟨c, rest, rfl⟩
      rw [List.foldl_cons]
      have hshape := cycleStep_of_cons acc sid c rest hc
      have hsid : sid ∉ l := (List.nodup_cons.1 hnd).1
      have hstore : ∀ sid' ∈ l, (cycleStep acc sid).1.store sid' = acc.1.store sid' := by
        intro sid' hs
        have hne : sid' ≠ sid := fun he => hsid (he ▸ hs)
        rw [hshape]
        exact updStore_other _ _ _ _ hne
      have hsnd : (cycleStep acc sid).2 = acc.2 ++ [c] := by rw [hshape]
      have hsounds : (cycleStep acc sid).1.sounds = acc.1.sounds := by rw [hshape]
      have hdone : (cycleStep acc sid).1.is_done = acc.1.is_done := by rw [hshape]
      obtain ⟨e1, e2, e3⟩ := ih (cycleStep acc sid) (List.nodup_cons.1 hnd).2
        (fun sid' hs => by
          rw [hstore sid' hs]
          exact hch sid' (List.mem_cons_of_mem sid hs))
      have hmap : l.map (fun sid' => ((cycleStep acc sid).1.store sid').chunks.headD []) =
          l.map (fun sid' => (acc.1.store sid').chunks.headD []) :=
        List.map_congr_left (fun sid' hs => by rw [hstore sid' hs])
      refine ⟨?_, e2.trans hsounds, e3.trans hdone⟩
      rw [e1, hsnd, hmap]
      simp [hc]

/-! ## Lemmas about the elementwise mean -/

theorem vecAdd_length (a b : List ℚ) : (vecAdd a b).length = min a.length b.length := by
  simp [vecAdd]

theorem vecAdd_getD (a b : List ℚ) (j : Nat) (ha : j < a.length) (hb : j < b.length) :
    (vecAdd a b).getD j 0 = a.getD j 0 + b.getD j 0 := by
  have hl : j < (vecAdd a b).length := by rw [vecAdd_length]; omega
  rw [List.getD_eq_getElem _ _ hl, List.getD_eq_getElem _ _ ha, List.getD_eq_getElem _ _ hb]
  simp [vecAdd]

theorem foldl_vecAdd_length (L : Nat) (cs : List Chunk) :
    ∀ c : Chunk, c.length = L → (∀ x ∈ cs, x.length = L) →
      (cs.foldl vecAdd c).length = L := by
  induction cs with
  | nil => intro c hc _; simpa using hc
  | cons x cs ih =>
      intro c hc hcs
      rw [List.foldl_cons]
      refine ih (vecAdd c x) ?_ (fun y hy => hcs y (List.mem_cons_of_mem x hy))
      rw [vecAdd_length, hc, hcs x (List.mem_cons_self x cs)]
      omega

theorem foldl_vecAdd_getD (L : Nat) (cs : List Chunk) :
    ∀ c : Chunk, c.length = L → (∀ x ∈ cs, x.length = L) → ∀ j, j < L →
      (cs.foldl vecAdd c).getD j 0 = c.getD j 0 + (cs.map (fun x => x.getD j 0)).sum := by
  induction cs with
  | nil => intro c _ _ j _; simp
  | cons x cs ih =>
      intro c hc hcs j hj
      rw [List.foldl_cons]
      have hx : x.length = L := hcs x (List.mem_cons_self x cs)
      have hxc : (vecAdd c x).length = L := by rw [vecAdd_length, hc, hx]; omega
      rw [ih (vecAdd c x) hxc (fun y hy => hcs y (List.mem_cons_of_mem x hy)) j hj]
      rw [vecAdd_getD c x j (by omega) (by omega)]
      simp [add_assoc]

theorem npMean_length (L : Nat) (cs : List Chunk) (hne : cs ≠ [])
    (hlen : ∀ x ∈ cs, x.length = L) : (npMean cs).length = L := by
  cases cs with
  | nil => exact absurd rfl hne
  | cons c rest =>
      simp only [npMean, List.length_map]
      exact foldl_vecAdd_length L rest c (hlen c (List.mem_cons_self c rest))
        (fun y hy => hlen y (List.mem_cons_of_mem c hy))

theorem npMean_getD (L : Nat) (cs : List Chunk) (hne : cs ≠ [])
    (hlen : ∀ x ∈ cs, x.length = L) (j : Nat) (hj : j < L) :
    (npMean cs).getD j 0 = (cs.map (fun x => x.getD j 0)).sum / (cs.length : ℚ) := by
  cases cs with
  | nil => exact absurd rfl hne
  | cons c rest =>
      have hc : c.length = L := hlen c (List.mem_cons_self c rest)
      have hrest : ∀ x ∈ rest, x.length = L :=
        fun y hy => hlen y (List.mem_cons_of_mem c hy)
      have hfl : (rest.foldl vecAdd c).length = L := foldl_vecAdd_length L rest c hc hrest
      have hjf : j < (rest.foldl vecAdd c).length := by omega
      have hjm : j < ((rest.foldl vecAdd c).map
          (fun x => x / ((rest.length + 1 : Nat) : ℚ))).length := by
        simpa using hjf
      simp only [npMean]
      rw [List.getD_eq_getElem _ _ hjm, List.getElem_map,
        ← List.getD_eq_getElem _ (0 : ℚ) hjf,
        foldl_vecAdd_getD L rest c hc hrest j hj]
      simp [List.sum_cons, List.length_cons]

/-! ## Lemmas about runCycle and next_chunks -/

theorem runCycle_frame (m : Mix) :
    (runCycle m).1.queue = m.queue ∧ (runCycle m).1.qcap = m.qcap ∧
    (runCycle m).1.running = m.running ∧ (runCycle m).1.sr = m.sr :=
  foldl_cycleStep_frame (snapshot m) (m, [])

theorem runCycle_inv (m : Mix) (h : PlaybackInv m) : PlaybackInv (runCycle m).1 :=
  foldl_cycleStep_inv (snapshot m) (m, []) h

theorem runCycle_exh_pres (m : Mix) (r : Nat) (h : Exhausted m r) :
    Exhausted (runCycle m).1 r :=
  foldl_cycleStep_exh_pres (snapshot m) (m, []) r h

theorem runCycle_done_mono (m : Mix) (h : m.is_done = true) :
    (runCycle m).1.is_done = true :=
  foldl_cycleStep_done_mono (snapshot m) (m, []) h

theorem runCycle_done_source (m : Mix) (hnd : m.sounds.Nodup)
    (h : (runCycle m).1.is_done = true) :
    m.is_done = true ∨ ∃ r ∈ snapshot m, Exhausted (runCycle m).1 r :=
  foldl_cycleStep_done_source (snapshot m) (m, []) hnd h

theorem next_chunks_of_ne (m : Mix) (h : (runCycle m).2 ≠ []) :
    next_chunks m = some ((runCycle m).1, npMean (runCycle m).2) := by
  unfold next_chunks
  cases h2 : (runCycle m).2 with
  | nil => exact absurd h2 h
  | cons c rest => simp [h2]

/-! ## Claim theorems -/

/-- Claim C1: for every non-empty set of N currently playing sources whose
next chunks are c_1,...,c_N (each of the same fixed length L), one cycle
of next_chunks returns exactly the elementwise arithmetic mean of
c_1,...,c_N — no clipping, no gain: sample j of the output equals the sum
of the j-th samples divided by N. -/
theorem next_chunks_returns_elementwise_mean (m : Mix) (L : Nat)
    (hnd : m.sounds.Nodup)
    (hplay : ∀ sid ∈ m.sounds, (m.store sid).playing = true)
    (hne : m.sounds ≠ [])
    (hch : ∀ sid ∈ m.sounds, (m.store sid).chunks ≠ [])
    (hlen : ∀ sid ∈ m.sounds, ((m.store sid).chunks.headD []).length = L) :
    ∃ out : Chunk, next_chunks m = some ((runCycle m).1, out) ∧
      out = npMean (m.sounds.map (fun sid => (m.store sid).chunks.headD [])) ∧
      out.length = L ∧
      ∀ j, j < L → out.getD j 0 =
        (m.sounds.map (fun sid => ((m.store sid).chunks.headD []).getD j 0)).sum /
          (m.sounds.length : ℚ) := by
  have hsnap : snapshot m = m.sounds :=
    List.filter_eq_self.mpr (fun sid hs => hplay sid hs)
  have hcol := foldl_cycleStep_collect m.sounds (m, []) hnd hch
  have hcs : (runCycle m).2 = m.sounds.map (fun sid => (m.store sid).chunks.headD []) := by
    unfold runCycle
    rw [hsnap]
    simpa using hcol.1
  have hcsne : (runCycle m).2 ≠ [] := by
    rw [hcs]
    simpa using hne
  have hlens : ∀ x ∈ (runCycle m).2, x.length = L := by
    rw [hcs]
    intro x hx
    obtain ⟨sid, hs, hxe⟩ := List.mem_map.1 hx
    exact hxe ▸ hlen sid hs
  refine ⟨npMean (runCycle m).2, next_chunks_of_ne m hcsne, by rw [hcs], ?_, ?_⟩
  · exact npMean_length L (runCycle m).2 hcsne hlens
  · intro j hj
    rw [npMean_getD L (runCycle m).2 hcsne hlens j hj, hcs, List.map_map]
    simp [Function.comp_def]

/-- Concrete instance of C1: two playing sources with chunks [1,3] and
[3,5]; the hypotheses hold and the mixed chunk is their elementwise
mean. -/
def c1mix : Mix :=
  { sr := 22050,
    store := fun sid => if sid = 0 then ⟨22050, true, [[1, 3]]⟩ else ⟨22050, true, [[3, 5]]⟩,
    sounds := [0, 1], is_done := false, queue := [], qcap := 1, running := true }

theorem next_chunks_returns_elementwise_mean_witness :
    (c1mix.sounds.Nodup ∧
      (∀ sid ∈ c1mix.sounds, (c1mix.store sid).playing = true) ∧
      c1mix.sounds ≠ [] ∧
      (∀ sid ∈ c1mix.sounds, (c1mix.store sid).chunks ≠ []) ∧
      (∀ sid ∈ c1mix.sounds, ((c1mix.store sid).chunks.headD []).length = 2)) ∧
    (∃ out : Chunk, next_chunks c1mix = some ((runCycle c1mix).1, out) ∧
      out = npMean (c1mix.sounds.map (fun sid => (c1mix.store sid).chunks.headD [])) ∧
      out.length = 2 ∧
      ∀ j, j < 2 → out.getD j 0 =
        (c1mix.sounds.map (fun sid => ((c1mix.store sid).chunks.headD []).getD j 0)).sum /
          (c1mix.sounds.length : ℚ)) :=
  ⟨⟨by decide, by decide, by decide, by decide, by decide⟩,
    next_chunks_returns_elementwise_mean c1mix 2 (by decide) (by decide) (by decide)
      (by decide) (by decide)⟩

/-! ## Shape of a successful play -/

theorem updStore_updStore (f : Nat → Sound) (i : Nat) (s1 s2 : Sound) :
    updStore (updStore f i s1) i s2 = updStore f i s2 := by
  funext j
  by_cases h : j = i <;> simp [updStore, h]

theorem play_ok_components (m : Mix) (sid : Nat) (h : m.sr = (m.store sid).sr) :
    (play sid m).2 = false ∧
    (play sid m).1.sounds =
      (if sid ∈ m.sounds then m.sounds.erase sid else m.sounds) ++ [sid] ∧
    (play sid m).1.store sid = { m.store sid with playing := true } ∧
    (∀ j, j ≠ sid → (play sid m).1.store j = m.store j) := by
  have h' : ¬ m.sr ≠ (m.store sid).sr := by simpa using h
  by_cases hm : sid ∈ m.sounds
  · refine ⟨by simp [play, remove, h', hm], by simp [play, remove, h', hm], ?_, ?_⟩
    · simp [play, remove, h', hm, updStore]
    · intro j hj
      simp [play, remove, h', hm, updStore, hj]
  · refine ⟨by simp [play, remove, h', hm], by simp [play, remove, h', hm], ?_, ?_⟩
    · simp [play, remove, h', hm, updStore]
    · intro j hj
      simp [play, remove, h', hm, updStore, hj]

/-! ## Invariant preservation by the three operations -/

theorem inv_play (m : Mix) (sid : Nat) (h : PlaybackInv m) : PlaybackInv (play sid m).1 := by
  obtain ⟨hpl, hnd⟩ := h
  by_cases hsr : m.sr ≠ (m.store sid).sr
  · rw [play_mismatch m sid hsr]
    exact ⟨hpl, hnd⟩
  · have h' : m.sr = (m.store sid).sr := not_not.1 hsr
    obtain ⟨-, hsounds, hsid, hother⟩ := play_ok_components m sid h'
    have hbnd : (if sid ∈ m.sounds then m.sounds.erase sid else m.sounds).Nodup := by
      by_cases hm : sid ∈ m.sounds <;> simp [hm, hnd, hnd.erase sid]
    have hsb : sid ∉ (if sid ∈ m.sounds then m.sounds.erase sid else m.sounds) := by
      by_cases hm : sid ∈ m.sounds <;> simp [hm]
      intro hx
      exact absurd ((hnd.mem_erase_iff).1 hx).1 (by simp)
    constructor
    · intro j hj
      rw [hsounds] at hj
      rcases List.mem_append.1 hj with hj1 | hj2
      · have hjs : j ≠ sid := fun he => hsb (he ▸ hj1)
        rw [hother j hjs]
        apply hpl j
        by_cases hm : sid ∈ m.sounds
        · simp only [hm, if_true] at hj1
          exact List.mem_of_mem_erase hj1
        · simpa [hm] using hj1
      · have hj2' : j = sid := by simpa using hj2
        subst hj2'
        rw [hsid]
    · rw [hsounds]
      refine List.Nodup.append hbnd (List.nodup_singleton sid) ?_
      intro x hx hmem
      have : x = sid := by simpa using hmem
      exact hsb (this ▸ hx)

theorem inv_remove (m : Mix) (sid : Nat) (h : PlaybackInv m) :
    PlaybackInv (remove sid m).1 := by
  obtain ⟨hpl, hnd⟩ := h
  by_cases hm : sid ∈ m.sounds
  · rw [remove_of_mem m sid hm]
    constructor
    · intro j hj
      have hj' : j ≠ sid ∧ j ∈ m.sounds := (hnd.mem_erase_iff).1 hj
      have hgoal : (updStore m.store sid { m.store sid with playing := false } j).playing =
          (m.store j).playing := by rw [updStore_other _ _ _ _ hj'.1]
      exact hgoal.trans (hpl j hj'.2)
    · exact hnd.erase sid
  · rw [remove_of_not_mem m sid hm]
    constructor
    · intro j hj
      have hjs : j ≠ sid := fun he => hm (he ▸ hj)
      have hgoal : (updStore m.store sid { m.store sid with playing := false } j).playing =
          (m.store j).playing := by rw [updStore_other _ _ _ _ hjs]
      exact hgoal.trans (hpl j hj)
    · exact hnd

/-- Claim C6: the PlaybackSet invariant — every member of the playback set
has playing set and no source appears twice — is preserved by play, by
remove, and by each next_chunks cycle. -/
theorem operations_preserve_playback_invariant (m : Mix) (sid : Nat) (h : PlaybackInv m) :
    PlaybackInv (play sid m).1 ∧ PlaybackInv (remove sid m).1 ∧
    PlaybackInv (runCycle m).1 :=
  ⟨inv_play m sid h, inv_remove m sid h, runCycle_inv m h⟩

/-- Concrete state used to witness C6. -/
def c6mix : Mix :=
  { sr := 22050,
    store := fun sid => if sid = 0 then ⟨22050, true, [[1]]⟩ else ⟨22050, false, []⟩,
    sounds := [0], is_done := false, queue := [], qcap := 1, running := true }

theorem operations_preserve_playback_invariant_witness :
    PlaybackInv c6mix ∧
    (PlaybackInv (play 1 c6mix).1 ∧ PlaybackInv (remove 1 c6mix).1 ∧
      PlaybackInv (runCycle c6mix).1) :=
  ⟨by decide, operations_preserve_playback_invariant c6mix 1 (by decide)⟩

/-- Claim C3 (amended): play on a source with mismatching samplerate
raises synchronously and leaves the playback set, the sound store and the
queue unchanged; however the completion signal is cleared before the
samplerate check, so the one state change the failed call does make is
resetting is_done to false. -/
theorem play_mismatch_raises_leaves_playback_set (m : Mix) (sid : Nat)
    (h : m.sr ≠ (m.store sid).sr) :
    (play sid m).2 = true ∧
    (play sid m).1.sounds = m.sounds ∧
    (play sid m).1.store = m.store ∧
    (play sid m).1.queue = m.queue ∧
    (play sid m).1.qcap = m.qcap ∧
    (play sid m).1.running = m.running ∧
    (play sid m).1.sr = m.sr ∧
    (play sid m).1.is_done = false := by
  rw [play_mismatch m sid h]
  exact ⟨rfl, rfl, rfl, rfl, rfl, rfl, rfl, rfl⟩

/-- Sampler state with the completion signal set and a 44100 Hz sound,
against a 22050 Hz mixer. -/
def c3mix : Mix :=
  { sr := 22050, store := fun _ => ⟨44100, false, []⟩, sounds := [],
    is_done := true, queue := [], qcap := 1, running := true }

/-- Claim C3 (counterexample): a mismatched play raises, yet it clears a
previously set completion signal, so the sampler state is mutated. -/
theorem play_mismatch_clears_completion_signal :
    c3mix.is_done = true ∧ c3mix.sr ≠ (c3mix.store 0).sr ∧
    (play 0 c3mix).2 = true ∧ (play 0 c3mix).1.is_done = false := by
  decide

theorem play_mismatch_raises_leaves_playback_set_witness :
    c3mix.sr ≠ (c3mix.store 0).sr ∧
    ((play 0 c3mix).2 = true ∧
      (play 0 c3mix).1.sounds = c3mix.sounds ∧
      (play 0 c3mix).1.store = c3mix.store ∧
      (play 0 c3mix).1.queue = c3mix.queue ∧
      (play 0 c3mix).1.qcap = c3mix.qcap ∧
      (play 0 c3mix).1.running = c3mix.running ∧
      (play 0 c3mix).1.sr = c3mix.sr ∧
      (play 0 c3mix).1.is_done = false) :=
  ⟨by decide, play_mismatch_raises_leaves_playback_set c3mix 0 (by decide)⟩

/-! ## Replay does not rewind the chunk iterator (claim C4) -/

/-- A sound with two chunks left: [1] then [2]. -/
def c4store : Nat → Sound := fun _ => ⟨22050, false, [[1], [2]]⟩

def c4m0 : Mix := { mixInit 22050 c4store with running := true }

def c4m1 : Mix := (play 0 c4m0).1

def c4m2 : Mix := (runCycle c4m1).1

def c4m3 : Mix := (play 0 c4m2).1

/-- Claim C4: play on an already-registered source does remove it and
re-add it with playing set — but the chunk sequence does NOT restart: the
cycle after the re-play yields the continuation chunk [2], not the first
chunk [1] again, because neither play nor remove rewinds the iterator.
This contradicts both the claim and the docstring of play ("it will
restart from the beginning"). -/
theorem replay_resumes_midstream :
    (play 0 c4m0).2 = false ∧
    (runCycle c4m1).2 = [[1]] ∧
    npMean (runCycle c4m1).2 = [1] ∧
    (0 ∈ c4m2.sounds ∧ (c4m2.store 0).playing = true) ∧
    (play 0 c4m2).2 = false ∧
    (c4m3.sounds = [0] ∧ (c4m3.store 0).playing = true) ∧
    (runCycle c4m3).2 = [[2]] ∧
    (next_chunks c4m3).map Prod.snd = some [2] ∧
    ([2] : Chunk) ≠ [1] := by
  have h1 : (runCycle c4m1).2 = [[1]] := by decide
  have h3 : (runCycle c4m3).2 = [[2]] := by decide
  have hmean1 : npMean (runCycle c4m1).2 = [1] := by
    rw [h1]
    norm_num [npMean]
  have hmean3 : npMean (runCycle c4m3).2 = [2] := by
    rw [h3]
    norm_num [npMean]
  have hnc : (next_chunks c4m3).map Prod.snd = some [2] := by
    rw [next_chunks_of_ne c4m3 (by rw [h3]; simp)]
    simp [hmean3]
  exact ⟨by decide, h1, hmean1, ⟨by decide, by decide⟩, by decide,
    ⟨by decide, by decide⟩, h3, hnc, by norm_num⟩

/-- Claim C8: constructing the sampler with a backend selector other than
sounddevice or dummy raises the configuration error immediately: the
constructor returns no result, and the playback-thread start (which in the
source comes after the backend dispatch) never appears in the effect
trace. -/
theorem unknown_backend_errors_no_thread (backend : String) (sr : Int)
    (store : Nat → Sound) (h1 : backend ≠ "dummy") (h2 : backend ≠ "sounddevice") :
    samplerInit sr store backend = .error .configError ∧
    samplerInitEffects backend = [] ∧
    (∀ r : InitResult, samplerInit sr store backend ≠ .ok r) := by
  have hc : chooseBackend backend = .error .configError := by
    simp [chooseBackend, h1, h2]
  refine ⟨by simp [samplerInit, hc], by simp [samplerInitEffects, hc], ?_⟩
  intro r h
  simp [samplerInit, hc] at h

/-- A store with no interesting sounds. -/
def defaultStore : Nat → Sound := fun _ => ⟨22050, false, []⟩

theorem unknown_backend_errors_no_thread_witness :
    (("pulseaudio" : String) ≠ "dummy" ∧ ("pulseaudio" : String) ≠ "sounddevice") ∧
    (samplerInit 22050 defaultStore "pulseaudio" = .error .configError ∧
      samplerInitEffects "pulseaudio" = [] ∧
      ∀ r : InitResult, samplerInit 22050 defaultStore "pulseaudio" ≠ .ok r) :=
  ⟨⟨by decide, by decide⟩,
    unknown_backend_errors_no_thread "pulseaudio" 22050 defaultStore
      (by decide) (by decide)⟩

/-- Claim C10: remove on a source that is not registered raises (the
list.remove ValueError), and the playing flag of the source has already been
set to false before the failure — the error path is not atomic.  The
playback set itself (and the rest of the sampler state) is unchanged. -/
theorem remove_missing_raises_after_mutation (m : Mix) (sid : Nat)
    (h : sid ∉ m.sounds) :
    (remove sid m).2 = true ∧
    ((remove sid m).1.store sid).playing = false ∧
    ((remove sid m).1.store sid).chunks = (m.store sid).chunks ∧
    (remove sid m).1.sounds = m.sounds ∧
    (remove sid m).1.is_done = m.is_done ∧
    (remove sid m).1.queue = m.queue := by
  rw [remove_of_not_mem m sid h]
  refine ⟨rfl, ?_, ?_, rfl, rfl, rfl⟩
  · show (updStore m.store sid { m.store sid with playing := false } sid).playing = false
    rw [updStore_same]
  · show (updStore m.store sid { m.store sid with playing := false } sid).chunks =
      (m.store sid).chunks
    rw [updStore_same]

theorem remove_missing_raises_after_mutation_witness :
    (1 ∉ c6mix.sounds) ∧
    ((remove 1 c6mix).2 = true ∧
      ((remove 1 c6mix).1.store 1).playing = false ∧
      ((remove 1 c6mix).1.store 1).chunks = (c6mix.store 1).chunks ∧
      (remove 1 c6mix).1.sounds = c6mix.sounds ∧
      (remove 1 c6mix).1.is_done = c6mix.is_done ∧
      (remove 1 c6mix).1.queue = c6mix.queue) :=
  ⟨by decide, remove_missing_raises_after_mutation c6mix 1 (by decide)⟩

/-! ## Component lemmas for the system transitions -/

theorem applyProdCycle_parts (s : SysState) :
    (applyProdCycle s).mix = (runCycle s.mix).1 ∧
    (applyProdCycle s).writer = s.writer ∧
    (applyProdCycle s).callers = s.callers ∧
    (applyProdCycle s).cvNotified = s.cvNotified ∧
    (applyProdCycle s).written = s.written ∧
    (applyProdCycle s).driverReleased = s.driverReleased := by
  unfold applyProdCycle
  cases h : (runCycle s.mix).2 <;> simp [h]

theorem applyProdWake_parts (s : SysState) :
    (applyProdWake s).mix = (runCycle s.mix).1 ∧
    (applyProdWake s).writer = s.writer ∧
    (applyProdWake s).callers = s.callers ∧
    (applyProdWake s).cvNotified = false ∧
    (applyProdWake s).written = s.written ∧
    (applyProdWake s).driverReleased = s.driverReleased := by
  unfold applyProdWake
  obtain ⟨h1, h2, h3, h4, h5, h6⟩ := applyProdCycle_parts s
  exact ⟨h1, h2, h3, rfl, h5, h6⟩

theorem applyProdPut_of (s : SysState) (c : Chunk) (hp : s.prod = .waitingPut c) :
    applyProdPut s =
      { s with mix := { s.mix with queue := s.mix.queue ++ [c] }, prod := .loopHead } := by
  simp [applyProdPut, hp]

theorem applyWriterWrite_of (s : SysState) (c : Chunk) (rest : List Chunk)
    (hq : s.mix.queue = c :: rest) :
    applyWriterWrite s =
      { s with mix := { s.mix with queue := rest }, written := s.written ++ [c] } := by
  simp [applyWriterWrite, hq]

theorem applyCallerPlay_of (s : SysState) (i : Nat) (c : CallerTh)
    (hc : s.callers[i]? = some c) :
    applyCallerPlay i s =
      { s with mix := (play c.sound s.mix).1,
               callers := s.callers.set i
                 { c with pc := if (play c.sound s.mix).2 then .raisedMismatch
                                else .waitingDone },
               cvNotified := if (play c.sound s.mix).2 = false && isWaitingCV s.prod
                             then true else s.cvNotified } := by
  simp [applyCallerPlay, hc]

theorem applyCallerRet_of (s : SysState) (i : Nat) (c : CallerTh)
    (hc : s.callers[i]? = some c) :
    applyCallerRet i s =
      { s with callers := s.callers.set i { c with pc := .returned } } := by
  simp [applyCallerRet, hc]

theorem lt_length_of_getElem? {α : Type} (l : List α) (i : Nat) (a : α)
    (h : l[i]? = some a) : i < l.length := by
  by_contra hn
  rw [List.getElem?_eq_none (Nat.le_of_not_lt hn)] at h
  exact Option.noConfusion h

/-! ## The global invariant carried along every trace -/

/-- Invariants that hold in every reachable state: the PlaybackSet
invariant, the completion-signal provenance, and the capacity-1 bound on
the handoff queue. -/
def SysGood (s : SysState) : Prop :=
  PlaybackInv s.mix ∧ DoneEv s.mix ∧ s.mix.qcap = 1 ∧ s.mix.queue.length ≤ 1

theorem doneEv_play (m : Mix) (sid : Nat) : DoneEv (play sid m).1 := by
  intro hdone
  have h5 := (play_frame m sid).2.2.2.2
  rw [h5] at hdone
  exact Bool.noConfusion hdone

theorem doneEv_runCycle (m : Mix) (h : PlaybackInv m) (hd : DoneEv m) :
    DoneEv (runCycle m).1 := by
  intro hdone
  cases hpre : m.is_done with
  | true =>
      obtain ⟨r, hr⟩ := hd hpre
      exact ⟨r, runCycle_exh_pres m r hr⟩
  | false =>
      rcases runCycle_done_source m h.2 hdone with h1 | ⟨r, _, hex⟩
      · rw [hpre] at h1
        exact Bool.noConfusion h1
      · exact ⟨r, hex⟩

theorem step_good (s s' : SysState) (h : Step s s') (hg : SysGood s) : SysGood s' := by
  obtain ⟨hinv, hdone, hcap, hqlen⟩ := hg
  cases h with
  | prodExit h1 h2 => exact ⟨hinv, hdone, hcap, hqlen⟩
  | prodCycle h1 h2 =>
      obtain ⟨hm, -, -, -, -, -⟩ := applyProdCycle_parts s
      rw [SysGood, hm]
      obtain ⟨q1, q2, -, -⟩ := runCycle_frame s.mix
      exact ⟨runCycle_inv s.mix hinv, doneEv_runCycle s.mix hinv hdone,
        q2.trans hcap, q1 ▸ hqlen⟩
  | prodWake h1 h2 =>
      obtain ⟨hm, -, -, -, -, -⟩ := applyProdWake_parts s
      rw [SysGood, hm]
      obtain ⟨q1, q2, -, -⟩ := runCycle_frame s.mix
      exact ⟨runCycle_inv s.mix hinv, doneEv_runCycle s.mix hinv hdone,
        q2.trans hcap, q1 ▸ hqlen⟩
  | prodPut c h1 h2 =>
      rw [applyProdPut_of s c h1]
      refine ⟨hinv, hdone, hcap, ?_⟩
      have : s.mix.queue.length = 0 := by omega
      simp [this]
  | writerExit h1 h2 => exact ⟨hinv, hdone, hcap, hqlen⟩
  | writerWrite c rest h1 h2 hq =>
      rw [applyWriterWrite_of s c rest hq]
      refine ⟨hinv, hdone, hcap, ?_⟩
      have : s.mix.queue.length = rest.length + 1 := by rw [hq]; rfl
      simp only []
      omega
  | writerTimeout h1 h2 h3 => exact ⟨hinv, hdone, hcap, hqlen⟩
  | callerPlay i c hc hpc =>
      rw [applyCallerPlay_of s i c hc]
      obtain ⟨f1, f2, f3, -, -⟩ := play_frame s.mix c.sound
      exact ⟨inv_play s.mix c.sound hinv, doneEv_play s.mix c.sound,
        f2.trans hcap, f1 ▸ hqlen⟩
  | callerRet i c hc hpc hd =>
      rw [applyCallerRet_of s i c hc]
      exact ⟨hinv, hdone, hcap, hqlen⟩

theorem init_good (s : SysState) (h : InitState s) : SysGood s := by
  obtain ⟨h1, h2, h3, h4, -, -, -, -, -, -, -⟩ := h
  refine ⟨⟨?_, ?_⟩, ?_, h4, ?_⟩
  · intro sid hs
    rw [h1] at hs
    exact absurd hs (List.not_mem_nil sid)
  · rw [h1]
    exact List.nodup_nil
  · intro hd
    rw [h2] at hd
    exact Bool.noConfusion hd
  · rw [h3]
    simp

theorem reachable_good (init s : SysState) (h0 : InitState init)
    (h : Reachable init s) : SysGood s := by
  induction h with
  | refl => exact init_good init h0
  | tail hr hstep ih => exact step_good _ _ hstep ih

/-- Soundness of the executable enabledness check: a state from which some
thread can step satisfies hasStep. -/
theorem step_hasStep (s s' : SysState) (h : Step s s') : hasStep s = true := by
  cases h with
  | prodExit h1 h2 => simp [hasStep, h1]
  | prodCycle h1 h2 => simp [hasStep, h1]
  | prodWake h1 h2 => simp [hasStep, h1, h2]
  | prodPut c h1 h2 => simp [hasStep, h1, h2]
  | writerExit h1 h2 => simp [hasStep, h1]
  | writerWrite c rest h1 h2 hq => simp [hasStep, h1]
  | writerTimeout h1 h2 h3 => simp [hasStep, h1]
  | callerPlay i c hc hpc =>
      have hmem : c ∈ s.callers := List.getElem?_mem hc
      simp only [hasStep, Bool.or_eq_true, List.any_eq_true]
      exact Or.inr ⟨c, hmem, by rw [hpc]⟩
  | callerRet i c hc hpc hd =>
      have hmem : c ∈ s.callers := List.getElem?_mem hc
      simp only [hasStep, Bool.or_eq_true, List.any_eq_true]
      exact Or.inr ⟨c, hmem, by rw [hpc]; exact hd⟩

/-! ## Claim C9: frame of remove, and the provenance of the signal -/

/-- Claim C9: for a registered source, remove deletes it from the playback
set and clears its playing flag, changing nothing else — in particular the
completion signal is untouched; and across every system transition, the
completion signal can only go from unset to set in a mixer cycle step that
exhausted some source. -/
theorem remove_frame_and_signal_source (m : Mix) (sid : Nat) (h : sid ∈ m.sounds) :
    (remove sid m).2 = false ∧
    (remove sid m).1.sounds = m.sounds.erase sid ∧
    ((remove sid m).1.store sid).playing = false ∧
    ((remove sid m).1.store sid).chunks = (m.store sid).chunks ∧
    ((remove sid m).1.store sid).sr = (m.store sid).sr ∧
    (∀ j, j ≠ sid → (remove sid m).1.store j = m.store j) ∧
    (remove sid m).1.is_done = m.is_done ∧
    (remove sid m).1.queue = m.queue ∧
    (remove sid m).1.running = m.running ∧
    (remove sid m).1.sr = m.sr ∧
    (∀ s s' : SysState, Step s s' → PlaybackInv s.mix →
       s.mix.is_done = false → s'.mix.is_done = true →
       (s.prod = .loopHead ∨ s.prod = .waitingCV) ∧
       ∃ r ∈ snapshot s.mix, Exhausted s'.mix r) := by
  rw [remove_of_mem m sid h]
  refine ⟨rfl, rfl, ?_, ?_, ?_, ?_, rfl, rfl, rfl, rfl, ?_⟩
  · show (updStore m.store sid { m.store sid with playing := false } sid).playing = false
    rw [updStore_same]
  · show (updStore m.store sid { m.store sid with playing := false } sid).chunks =
      (m.store sid).chunks
    rw [updStore_same]
  · show (updStore m.store sid { m.store sid with playing := false } sid).sr =
      (m.store sid).sr
    rw [updStore_same]
  · intro j hj
    show updStore m.store sid { m.store sid with playing := false } j = m.store j
    exact updStore_other _ _ _ _ hj
  · intro s s' hstep hinv hf ht
    cases hstep with
    | prodExit h1 h2 =>
        exact absurd (show s.mix.is_done = true from ht) (by simp [hf])
    | prodCycle h1 h2 =>
        refine ⟨Or.inl h1, ?_⟩
        have hm := (applyProdCycle_parts s).1
        rw [hm] at ht
        rcases runCycle_done_source s.mix hinv.2 ht with hcontra | ⟨r, hr, hex⟩
        · rw [hf] at hcontra
          exact Bool.noConfusion hcontra
        · exact ⟨r, hr, by rw [hm]; exact hex⟩
    | prodWake h1 h2 =>
        refine ⟨Or.inr h1, ?_⟩
        have hm := (applyProdWake_parts s).1
        rw [hm] at ht
        rcases runCycle_done_source s.mix hinv.2 ht with hcontra | ⟨r, hr, hex⟩
        · rw [hf] at hcontra
          exact Bool.noConfusion hcontra
        · exact ⟨r, hr, by rw [hm]; exact hex⟩
    | prodPut c h1 h2 =>
        rw [applyProdPut_of s c h1] at ht
        exact absurd (show s.mix.is_done = true from ht) (by simp [hf])
    | writerExit h1 h2 =>
        exact absurd (show s.mix.is_done = true from ht) (by simp [hf])
    | writerWrite c rest h1 h2 hq =>
        rw [applyWriterWrite_of s c rest hq] at ht
        exact absurd (show s.mix.is_done = true from ht) (by simp [hf])
    | writerTimeout h1 h2 h3 =>
        exact absurd (show s.mix.is_done = true from ht) (by simp [hf])
    | callerPlay i c hc hpc =>
        rw [applyCallerPlay_of s i c hc] at ht
        have hfd := (play_frame s.mix c.sound).2.2.2.2
        rw [show ((play c.sound s.mix).1.is_done = true) from ht] at hfd
        exact Bool.noConfusion hfd
    | callerRet i c hc hpc hd =>
        rw [applyCallerRet_of s i c hc] at ht
        exact absurd (show s.mix.is_done = true from ht) (by simp [hf])

theorem remove_frame_and_signal_source_witness :
    (0 ∈ c6mix.sounds) ∧
    ((remove 0 c6mix).2 = false ∧
      (remove 0 c6mix).1.sounds = c6mix.sounds.erase 0 ∧
      ((remove 0 c6mix).1.store 0).playing = false ∧
      ((remove 0 c6mix).1.store 0).chunks = (c6mix.store 0).chunks ∧
      ((remove 0 c6mix).1.store 0).sr = (c6mix.store 0).sr ∧
      (∀ j, j ≠ 0 → (remove 0 c6mix).1.store j = c6mix.store j) ∧
      (remove 0 c6mix).1.is_done = c6mix.is_done ∧
      (remove 0 c6mix).1.queue = c6mix.queue ∧
      (remove 0 c6mix).1.running = c6mix.running ∧
      (remove 0 c6mix).1.sr = c6mix.sr ∧
      (∀ s s' : SysState, Step s s' → PlaybackInv s.mix →
        s.mix.is_done = false → s'.mix.is_done = true →
        (s.prod = .loopHead ∨ s.prod = .waitingCV) ∧
        ∃ r ∈ snapshot s.mix, Exhausted s'.mix r)) :=
  ⟨by decide, remove_frame_and_signal_source c6mix 0 (by decide)⟩

/-! ## Claim C2: the completion signal is shared between callers -/

/-- Two sounds at the mixer samplerate: sound 0 has chunks left, sound 1 is
an already-empty iterator. -/
def c2store : Nat → Sound := fun sid =>
  if sid = 0 then ⟨22050, false, [[1], [1]]⟩ else ⟨22050, false, []⟩

/-- Freshly constructed sampler with two caller threads, one about to play
sound 0 and one about to play sound 1. -/
def c2init : SysState :=
  { mix := { mixInit 22050 c2store with running := true },
    prod := .loopHead, writer := .loopHead,
    callers := [⟨0, .ready⟩, ⟨1, .ready⟩],
    cvNotified := false, written := [], driverReleased := false }

def c2S1 : SysState := applyCallerPlay 0 c2init

def c2S2 : SysState := applyCallerPlay 1 c2S1

def c2S3 : SysState := applyProdCycle c2S2

def c2S4 : SysState := applyCallerRet 0 c2S3

theorem c2_reach_S3 : Reachable c2init c2S3 :=
  Relation.ReflTransGen.head (Step.callerPlay c2init 0 ⟨0, .ready⟩ (by decide) rfl)
    (Relation.ReflTransGen.head (Step.callerPlay c2S1 1 ⟨1, .ready⟩ (by decide) rfl)
      (Relation.ReflTransGen.head (Step.prodCycle c2S2 (by decide) (by decide))
        Relation.ReflTransGen.refl))

theorem c2_step_S4 : Step c2S3 c2S4 :=
  Step.callerRet c2S3 0 ⟨0, .waitingDone⟩ (by decide) rfl (by decide)

/-- Claim C2 (counterexample): with sound 0 still playing, the exhaustion
of sound 1 sets the shared completion event, and the caller of
play(sound 0) returns while its own sound is still marked playing. -/
theorem play_can_return_while_sound_playing :
    InitState c2init ∧
    Reachable c2init c2S3 ∧
    c2S3.callers[0]? = some ⟨0, .waitingDone⟩ ∧
    (c2S3.callers[0]?).map CallerTh.sound = some 0 ∧
    Step c2S3 c2S4 ∧
    (c2S4.callers[0]?).map CallerTh.pc = some .returned ∧
    (c2S4.mix.store 0).playing = true ∧
    0 ∈ c2S4.mix.sounds :=
  ⟨by decide, c2_reach_S3, by decide, by decide, c2_step_S4, by decide, by decide,
    by decide⟩

/-- Claim C2 (amended): a caller blocked in play can only return once the
shared completion event is set, and the event is only ever set by the
mixer exhausting some source — that source has playing == false, an empty
chunk sequence and has left the playback set; but it need not be the
own source of the caller, so play may return while its own source is still
playing. -/
theorem play_returns_only_after_some_exhaustion (init s s' : SysState) (i : Nat)
    (cth : CallerTh) (h0 : InitState init) (h1 : Reachable init s) (h2 : Step s s')
    (h3 : s.callers[i]? = some cth) (h4 : cth.pc = .waitingDone)
    (h5 : (s'.callers[i]?).map CallerTh.pc = some .returned) :
    s.mix.is_done = true ∧
    ∃ r, (s.mix.store r).playing = false ∧ (s.mix.store r).chunks = [] ∧
      r ∉ s.mix.sounds := by
  have hdone : s.mix.is_done = true := by
    cases h2 with
    | callerRet j c hc hpc hd => exact hd
    | callerPlay j c hc hpc =>
        by_cases hij : j = i
        · subst hij
          rw [hc] at h3
          injection h3 with he
          rw [← he, hpc] at h4
          exact CallerPC.noConfusion h4
        · rw [applyCallerPlay_of s j c hc] at h5
          rw [List.getElem?_set_ne (fun he => hij he)] at h5
          rw [h3] at h5
          exact absurd h5 (by simp [h4])
    | prodExit ha hb =>
        exact absurd h5 (by simp [applyProdExit, h3, h4])
    | prodCycle ha hb =>
        rw [(applyProdCycle_parts s).2.2.1, h3] at h5
        exact absurd h5 (by simp [h4])
    | prodWake ha hb =>
        rw [(applyProdWake_parts s).2.2.1, h3] at h5
        exact absurd h5 (by simp [h4])
    | prodPut c ha hb =>
        rw [applyProdPut_of s c ha] at h5
        exact absurd h5 (by simp [h3, h4])
    | writerExit ha hb =>
        exact absurd h5 (by simp [applyWriterExit, h3, h4])
    | writerWrite c rest ha hb hq =>
        rw [applyWriterWrite_of s c rest hq] at h5
        exact absurd h5 (by simp [h3, h4])
    | writerTimeout ha hb hc =>
        exact absurd h5 (by simp [applyWriterTimeout, h3, h4])
  obtain ⟨r, hex⟩ := (reachable_good init s h0 h1).2.1 hdone
  exact ⟨hdone, r, hex.1, hex.2.1, hex.2.2⟩

theorem play_returns_only_after_some_exhaustion_witness :
    (InitState c2init ∧ Reachable c2init c2S3 ∧ Step c2S3 c2S4 ∧
      c2S3.callers[0]? = some ⟨0, CallerPC.waitingDone⟩ ∧
      (⟨0, CallerPC.waitingDone⟩ : CallerTh).pc = .waitingDone ∧
      (c2S4.callers[0]?).map CallerTh.pc = some .returned) ∧
    (c2S3.mix.is_done = true ∧
      ∃ r, (c2S3.mix.store r).playing = false ∧ (c2S3.mix.store r).chunks = [] ∧
        r ∉ c2S3.mix.sounds) :=
  ⟨⟨by decide, c2_reach_S3, c2_step_S4, by decide, rfl, by decide⟩,
    play_returns_only_after_some_exhaustion c2init c2S3 c2S4 0 ⟨0, .waitingDone⟩
      (by decide) c2_reach_S3 c2_step_S4 (by decide) rfl (by decide)⟩

/-! ## Claim C5: shutdown on queue-read timeout -/

/-- Freshly constructed sampler with no callers and no sounds. -/
def c5init : SysState :=
  { mix := { mixInit 22050 defaultStore with running := true },
    prod := .loopHead, writer := .loopHead,
    callers := [], cvNotified := false, written := [], driverReleased := false }

def c5S1 : SysState := applyProdCycle c5init

def c5S2 : SysState := applyWriterTimeout c5S1

def c5stuck : SysState := applyWriterExit c5S2

theorem c5_reach : Reachable c5init c5stuck :=
  Relation.ReflTransGen.head (Step.prodCycle c5init (by decide) (by decide))
    (Relation.ReflTransGen.head (Step.writerTimeout c5S1 (by decide) (by decide) (by decide))
      (Relation.ReflTransGen.head (Step.writerExit c5S2 (by decide) (by decide))
        Relation.ReflTransGen.refl))

/-- Claim C5 (counterexample): after the timeout the running flag is false
and the device writer exits releasing the driver, but the chunk-producer
loop does not terminate: it is blocked in chunk_available.wait (no sound
will ever be added: there are no callers), the state has no enabled
transition at all, and the producer has not exited.  Together with
step_hasStep this shows the producer loop never terminates. -/
theorem producer_can_block_forever_after_timeout :
    InitState c5init ∧
    Reachable c5init c5stuck ∧
    c5stuck.mix.running = false ∧
    c5stuck.writer = .exited ∧
    c5stuck.driverReleased = true ∧
    c5stuck.prod = .waitingCV ∧
    c5stuck.prod ≠ .exited ∧
    hasStep c5stuck = false :=
  ⟨by decide, c5_reach, by decide, by decide, by decide, by decide, by decide, by decide⟩

/-- Claim C5 (amended): when the queue read of the writer times out, running is
set to false — a pure flag change: no exception reaches any caller and the
completion signal is untouched; the device-writer loop then observes the
flag, terminates and releases the output driver; and the producer
terminates if (and only when) it reaches its loop-head check of running —
it may instead stay blocked forever, as the counterexample shows. -/
theorem timeout_stops_writer_releases_driver (s : SysState)
    (hw : s.writer = .loopHead) (hr : s.mix.running = true) (hq : s.mix.queue = []) :
    Step s (applyWriterTimeout s) ∧
    (applyWriterTimeout s).mix.running = false ∧
    (applyWriterTimeout s).callers = s.callers ∧
    (applyWriterTimeout s).mix.is_done = s.mix.is_done ∧
    Step (applyWriterTimeout s) (applyWriterExit (applyWriterTimeout s)) ∧
    (applyWriterExit (applyWriterTimeout s)).writer = .exited ∧
    (applyWriterExit (applyWriterTimeout s)).driverReleased = true ∧
    (s.prod = .loopHead →
      Step (applyWriterTimeout s) (applyProdExit (applyWriterTimeout s)) ∧
      (applyProdExit (applyWriterTimeout s)).prod = .exited) := by
  refine ⟨Step.writerTimeout s hw hr hq, rfl, rfl, rfl, ?_, rfl, rfl, ?_⟩
  · exact Step.writerExit (applyWriterTimeout s) hw rfl
  · intro hp
    exact ⟨Step.prodExit (applyWriterTimeout s) hp rfl, rfl⟩

theorem timeout_stops_writer_releases_driver_witness :
    (c5init.writer = .loopHead ∧ c5init.mix.running = true ∧ c5init.mix.queue = []) ∧
    (Step c5init (applyWriterTimeout c5init) ∧
      (applyWriterTimeout c5init).mix.running = false ∧
      (applyWriterTimeout c5init).callers = c5init.callers ∧
      (applyWriterTimeout c5init).mix.is_done = c5init.mix.is_done ∧
      Step (applyWriterTimeout c5init) (applyWriterExit (applyWriterTimeout c5init)) ∧
      (applyWriterExit (applyWriterTimeout c5init)).writer = .exited ∧
      (applyWriterExit (applyWriterTimeout c5init)).driverReleased = true ∧
      (c5init.prod = .loopHead →
        Step (applyWriterTimeout c5init) (applyProdExit (applyWriterTimeout c5init)) ∧
        (applyProdExit (applyWriterTimeout c5init)).prod = .exited)) :=
  ⟨⟨by decide, by decide, by decide⟩,
    timeout_stops_writer_releases_driver c5init (by decide) (by decide) (by decide)⟩

/-! ## Claim C7: the handoff queue holds at most one chunk -/

/-- Claim C7: in every reachable state the handoff queue has capacity 1 and
holds at most one mixed chunk; and the only transition that leaves the
blocking-put state of the producer is the put itself, whose guard requires room
in the queue — a put while full stays blocked until the consumer drains. -/
theorem handoff_queue_capacity_one :
    (∀ init s : SysState, InitState init → Reachable init s →
      s.mix.qcap = 1 ∧ s.mix.queue.length ≤ 1) ∧
    (∀ (s s' : SysState) (c : Chunk), Step s s' → s.prod = .waitingPut c →
      s'.prod ≠ .waitingPut c →
      s.mix.queue.length < s.mix.qcap ∧ s'.mix.queue = s.mix.queue ++ [c] ∧
      s'.prod = .loopHead) := by
  constructor
  · intro init s h0 hr
    obtain ⟨-, -, hcap, hlen⟩ := reachable_good init s h0 hr
    exact ⟨hcap, hlen⟩
  · intro s s' c hstep hput hne
    cases hstep with
    | prodExit h1 h2 => simp [hput] at h1
    | prodCycle h1 h2 => simp [hput] at h1
    | prodWake h1 h2 => simp [hput] at h1
    | prodPut c2 h1 h2 =>
        rw [hput] at h1
        injection h1 with hcc
        subst hcc
        rw [applyProdPut_of s c hput]
        exact ⟨h2, rfl, rfl⟩
    | writerExit h1 h2 => exact absurd hput hne
    | writerWrite c2 rest h1 h2 hq =>
        rw [applyWriterWrite_of s c2 rest hq] at hne
        exact absurd hput hne
    | writerTimeout h1 h2 h3 => exact absurd hput hne
    | callerPlay i c2 hc hpc =>
        rw [applyCallerPlay_of s i c2 hc] at hne
        exact absurd hput hne
    | callerRet i c2 hc hpc hd =>
        rw [applyCallerRet_of s i c2 hc] at hne
        exact absurd hput hne

theorem handoff_queue_capacity_one_witness :
    InitState c5init ∧ (c5init.mix.qcap = 1 ∧ c5init.mix.queue.length ≤ 1) :=
  ⟨by decide,
    handoff_queue_capacity_one.1 c5init c5init (by decide) Relation.ReflTransGen.refl⟩

end Sampler
